import Mathlib

/-!
# bopher/crypto: the keyed hashing and AES-GCM facade of `crypto_driver.go`

A shallow embedding of `cryptoDriver` and its methods.  Go `string` and `[]byte`
values are both lists of bytes.  A Go function returning `(value, error)` is a
function into `value × Option GoError`; a function that can also stop with a
runtime panic returns an `Outcome`.

The cryptographic primitives the driver calls (HMAC states, AES-GCM seal and
open) are the fields of `Primitives`; what the Go libraries promise about them
is stated as named predicates on a `Primitives` value and taken as a hypothesis
where a property needs it.  The plain library routines the driver composes
(`encoding/hex`, `encoding/base64`, `path/filepath.Ext`, `io.ReadFull`, the key
length check of `aes.NewCipher`) are modelled as functions.
-/

namespace Crypto

/-- One Go `byte`. -/
abbrev Byte := Fin 256

/-- A Go `string` or `[]byte`: a finite sequence of bytes. -/
abbrev Bytes := List Byte

/-- Modelled from the spec: the declaration of the type `HashAlgo` and of its
fifteen constants is not part of `crypto_driver.go`.  The spec describes an
enumerated identifier with a closed set of fifteen supported values, other values
being possible and reported as invalid; `invalid tag` stands for those. -/
inductive HashAlgo where
  | MD4 | MD5 | SHA1 | SHA256 | SHA256224 | SHA512 | SHA512224 | SHA512256 | SHA384
  | SHA3224 | SHA3256 | SHA3384 | SHA3512 | KECCAK256 | KECCAK512
  | invalid (tag : Nat)
  deriving DecidableEq, Repr

/-- Modelled from the spec: the closed set of supported identifiers, in the order
the spec lists them. -/
def supportedAlgos : List HashAlgo :=
  [.MD4, .MD5, .SHA1, .SHA256, .SHA256224, .SHA512, .SHA512224, .SHA512256, .SHA384,
   .SHA3224, .SHA3256, .SHA3384, .SHA3512, .KECCAK256, .KECCAK512]

/-- The digest constructors of the Go libraries that `Hash` hands to `hmac.New`. -/
inductive HashCtor where
  | md4_New | md5_New | sha1_New | sha256_New | sha256_New224
  | sha512_New | sha512_New512_224 | sha512_New512_256 | sha512_New384
  | sha3_New224 | sha3_New256 | sha3_New384 | sha3_New512
  | sha3_NewLegacyKeccak256 | sha3_NewLegacyKeccak512
  deriving DecidableEq, Repr

/-- Library constant `md4.Size`. -/
def md4_Size : Nat := 16
/-- Library constant `md5.Size`. -/
def md5_Size : Nat := 16
/-- Library constant `sha1.Size`. -/
def sha1_Size : Nat := 20
/-- Library constant `sha256.Size`. -/
def sha256_Size : Nat := 32
/-- Library constant `sha256.Size224`. -/
def sha256_Size224 : Nat := 28
/-- Library constant `sha512.Size`. -/
def sha512_Size : Nat := 64
/-- Library constant `sha512.Size224`. -/
def sha512_Size224 : Nat := 28
/-- Library constant `sha512.Size256`. -/
def sha512_Size256 : Nat := 32
/-- Library constant `sha512.Size384`. -/
def sha512_Size384 : Nat := 48

/-- The value of `h().Size()` for a digest constructor `h`: the number of bytes
`Sum` appends.  For the `crypto/*` and `md4` packages it is the package constant,
for `sha3` the output length of the state the constructor returns. -/
def HashCtor.Size : HashCtor → Nat
  | .md4_New => md4_Size
  | .md5_New => md5_Size
  | .sha1_New => sha1_Size
  | .sha256_New => sha256_Size
  | .sha256_New224 => sha256_Size224
  | .sha512_New => sha512_Size
  | .sha512_New512_224 => sha512_Size224
  | .sha512_New512_256 => sha512_Size256
  | .sha512_New384 => sha512_Size384
  | .sha3_New224 => 28
  | .sha3_New256 => 32
  | .sha3_New384 => 48
  | .sha3_New512 => 64
  | .sha3_NewLegacyKeccak256 => 32
  | .sha3_NewLegacyKeccak512 => 64

/-- Error values.  The first group are the errors of library calls, the last two
are what `cryptoDriver.err` builds with `utils.TaggedError`. -/
inductive GoError where
  | hashWrite
  | keySizeError (k : Nat)
  | gcmBlockSize
  | randRead
  | openFailed
  | hexInvalidByte (b : Byte)
  | hexErrLength
  | base64Corrupt
  | invalidHasher (algo : HashAlgo)
  | tagged (inner : GoError)
  deriving DecidableEq, Repr

/-- Runtime panics of the Go program. -/
inductive Panic where
  | sliceBounds (low high : Nat)
  deriving DecidableEq, Repr

/-- What a call of a Go function `func(...) (α, error)` does: it returns its pair
of results, or the goroutine panics. -/
inductive Outcome (α : Type) where
  | ret (val : α) (err : Option GoError)
  | panic (p : Panic)
  deriving DecidableEq, Repr

/-- The cryptographic primitives used by the driver.
`hmac_New h key` is the state `hmac.New(h, key)`, `Write` is `hasher.Write(p)` as
a state transformer together with the error it returns, `Sum` is
`hasher.Sum(nil)`.  `Seal key nonce plaintext aad` is what `gcm.Seal` appends to
its destination and `Open key nonce ciphertext aad` is the result of `gcm.Open`
(`none` when it returns an error) for the AES-GCM instance built on `key`. -/
structure Primitives where
  Hasher : Type
  hmac_New : HashCtor → Bytes → Hasher
  Write : Hasher → Bytes → Hasher × Option GoError
  Sum : Hasher → Bytes
  Seal : Bytes → Bytes → Bytes → Bytes → Bytes
  Open : Bytes → Bytes → Bytes → Bytes → Option Bytes

/-! ## encoding/hex -/

/-- The table `hextable = "0123456789abcdef"` of `encoding/hex`. -/
def hextable : List Byte :=
  [48, 49, 50, 51, 52, 53, 54, 55, 56, 57, 97, 98, 99, 100, 101, 102]

/-- Go `hex.EncodeToString`: every byte `v` becomes `hextable[v>>4]`,
`hextable[v&0x0f]`. -/
def hex_EncodeToString : Bytes → Bytes
  | [] => []
  | v :: src => hextable.getD (v.val / 16) 0 :: hextable.getD (v.val % 16) 0
      :: hex_EncodeToString src

/-- The table `reverseHexTable` of `encoding/hex`: the value of a hexadecimal
digit in either case, `none` where the table holds `0xff`. -/
def fromHexChar (c : Byte) : Option Nat :=
  if 48 ≤ c.val ∧ c.val ≤ 57 then some (c.val - 48)
  else if 97 ≤ c.val ∧ c.val ≤ 102 then some (c.val - 97 + 10)
  else if 65 ≤ c.val ∧ c.val ≤ 70 then some (c.val - 65 + 10)
  else none

/-- Go `hex.DecodeString`, its error and, when there is none, the decoded bytes
(the callers in this file drop the bytes when there is an error). -/
def hex_DecodeString : Bytes → Except GoError Bytes
  | [] => .ok []
  | [p] =>
    match fromHexChar p with
    | none => .error (.hexInvalidByte p)
    | some _ => .error .hexErrLength
  | p :: q :: src =>
    match fromHexChar p, fromHexChar q with
    | none, _ => .error (.hexInvalidByte p)
    | some _, none => .error (.hexInvalidByte q)
    | some a, some b =>
      match hex_DecodeString src with
      | .error e => .error e
      | .ok rest => .ok (Fin.ofNat (a * 16 + b) :: rest)

/-! ## The driver: hashing -/

/-- The Go struct `cryptoDriver`. -/
structure cryptoDriver where
  key : Bytes

/-- The method `cryptoDriver.Hash`. -/
def cryptoDriver.Hash (P : Primitives) (this : cryptoDriver) (data : Bytes)
    (algo : HashAlgo) : Bytes × Option GoError :=
  let key := this.key
  let hasher : Option P.Hasher :=
    match algo with
    | .MD4 => some (P.hmac_New .md4_New key)
    | .MD5 => some (P.hmac_New .md5_New key)
    | .SHA1 => some (P.hmac_New .sha1_New key)
    | .SHA256 => some (P.hmac_New .sha256_New key)
    | .SHA256224 => some (P.hmac_New .sha256_New224 key)
    | .SHA512 => some (P.hmac_New .sha512_New key)
    | .SHA512224 => some (P.hmac_New .sha512_New512_224 key)
    | .SHA512256 => some (P.hmac_New .sha512_New512_256 key)
    | .SHA384 => some (P.hmac_New .sha512_New384 key)
    | .SHA3224 => some (P.hmac_New .sha3_New224 key)
    | .SHA3256 => some (P.hmac_New .sha3_New256 key)
    | .SHA3384 => some (P.hmac_New .sha3_New384 key)
    | .SHA3512 => some (P.hmac_New .sha3_New512 key)
    | .KECCAK256 => some (P.hmac_New .sha3_NewLegacyKeccak256 key)
    | .KECCAK512 => some (P.hmac_New .sha3_NewLegacyKeccak512 key)
    | .invalid _ => none
  match hasher with
  | none => ([], some (.invalidHasher algo))
  | some hasher =>
    match P.Write hasher data with
    | (_, some err) => ([], some (.tagged err))
    | (hasher, none) => (hex_EncodeToString (P.Sum hasher), none)

/-- The method `cryptoDriver.HashSize`. -/
def cryptoDriver.HashSize (algo : HashAlgo) : Int :=
  match algo with
  | .MD4 => md4_Size
  | .MD5 => md5_Size
  | .SHA1 => sha1_Size
  | .SHA256 => sha256_Size
  | .SHA256224 => sha256_Size224
  | .SHA512 => sha512_Size
  | .SHA512224 => sha512_Size224
  | .SHA512256 => sha512_Size256
  | .SHA384 => sha512_Size384
  | .SHA3224 => HashCtor.sha3_New224.Size
  | .SHA3256 => HashCtor.sha3_New256.Size
  | .SHA3384 => HashCtor.sha3_New384.Size
  | .SHA3512 => HashCtor.sha3_New512.Size
  | .KECCAK256 => HashCtor.sha3_NewLegacyKeccak256.Size
  | .KECCAK512 => HashCtor.sha3_NewLegacyKeccak512.Size
  | .invalid _ => -1

/-- The method `cryptoDriver.Check`. -/
def cryptoDriver.Check (P : Primitives) (this : cryptoDriver) (data hash : Bytes)
    (algo : HashAlgo) : Bool × Option GoError :=
  match this.Hash P data algo with
  | (_, some err) => (false, some (.tagged err))
  | (res, none) => (decide (res = hash), none)

/-! ## path/filepath and fmt -/

/-- Go `os.IsPathSeparator` on a Unix build: the separator is `/`. -/
def os_IsPathSeparator (c : Byte) : Bool := c = 47

/-- The loop of `filepath.Ext`, `n` being `i + 1` for the loop variable `i`:
`for i := len(path) - 1; i >= 0 && !os.IsPathSeparator(path[i]); i--`. -/
def filepath_Ext_loop (path : Bytes) : Nat → Bytes
  | 0 => []
  | i + 1 =>
    if os_IsPathSeparator (path.getD i 0) then []
    else if path.getD i 0 = 46 then path.drop i
    else filepath_Ext_loop path i

/-- Go `filepath.Ext`. -/
def filepath_Ext (path : Bytes) : Bytes := filepath_Ext_loop path path.length

/-- The decimal text `%d` prints for a non-negative `int`. -/
def fmt_decimal (n : Nat) : Bytes := (Nat.toDigits 10 n).map fun c => Fin.ofNat c.toNat

/-- Go `fmt.Sprintf("%s-at-%d", filename, n)`, for `n ≥ 0`. -/
def fmt_Sprintf_at (filename : Bytes) (n : Nat) : Bytes :=
  filename ++ [45, 97, 116, 45] ++ fmt_decimal n

/-- The method `cryptoDriver.HashFilename`; `nanosecond` is the value read from
`time.Now().Nanosecond()`. -/
def cryptoDriver.HashFilename (P : Primitives) (this : cryptoDriver) (nanosecond : Nat)
    (filename : Bytes) (algo : HashAlgo) : Bytes × Option GoError :=
  let ext := filepath_Ext filename
  match this.Hash P (fmt_Sprintf_at filename nanosecond) algo with
  | (_, some err) => ([], some (.tagged err))
  | (res, none) => (res ++ ext, none)

/-! ## crypto/aes, crypto/cipher, io -/

/-- An AES `cipher.Block`: the key it was built on. -/
structure Block where
  key : Bytes
  deriving DecidableEq, Repr

/-- The method `BlockSize` of an AES block: `aes.BlockSize`. -/
def Block.BlockSize (_ : Block) : Nat := 16

/-- Go `aes.NewCipher`: the key length must be 16, 24 or 32. -/
def aes_NewCipher (key : Bytes) : Except GoError Block :=
  let k := key.length
  if k = 16 ∨ k = 24 ∨ k = 32 then .ok { key := key } else .error (.keySizeError k)

/-- A GCM instance over a block cipher. -/
structure GCM where
  cipher : Block
  nonceSize : Nat
  tagSize : Nat
  deriving DecidableEq, Repr

/-- Go `cipher.NewGCM`: standard nonce size 12 and tag size 16; fails unless the
block size is 16. -/
def cipher_NewGCM (block : Block) : Except GoError GCM :=
  if block.BlockSize ≠ 16 then .error .gcmBlockSize
  else .ok { cipher := block, nonceSize := 12, tagSize := 16 }

/-- The method `NonceSize` of a GCM instance. -/
def GCM.NonceSize (g : GCM) : Nat := g.nonceSize

/-- Go `io.ReadFull(r, buf)` for a buffer of `n` bytes, the reader being the
sequence of bytes it has left to deliver: the first `n` of them, or an error when
there are fewer. -/
def io_ReadFull (reader : Bytes) (n : Nat) : Bytes × Option GoError :=
  if n ≤ reader.length then (reader.take n, none)
  else (reader ++ List.replicate (n - reader.length) 0, some .randRead)

/-- The two slice expressions `data[:n], data[n:]` of a Go slice.  `data[n:]`
panics when `n > len(data)` (and `data[:n]` already does when `n > cap(data)`). -/
def sliceAt (data : Bytes) (n : Nat) : Except Panic (Bytes × Bytes) :=
  if n ≤ data.length then .ok (data.take n, data.drop n)
  else .error (.sliceBounds n data.length)

/-! ## The driver: encryption -/

/-- The method `cryptoDriver.Encrypt`; `rand_Reader` is what `rand.Reader` has to
deliver at the call. -/
def cryptoDriver.Encrypt (P : Primitives) (this : cryptoDriver) (rand_Reader : Bytes)
    (data : Bytes) : Bytes × Option GoError :=
  match this.Hash P this.key .MD5 with
  | (_, some err) => ([], some (.tagged err))
  | (key, none) =>
    match aes_NewCipher key with
    | .error err => ([], some (.tagged err))
    | .ok block =>
      match cipher_NewGCM block with
      | .error err => ([], some (.tagged err))
      | .ok gcm =>
        match io_ReadFull rand_Reader gcm.NonceSize with
        | (_, some err) => ([], some (.tagged err))
        | (nonce, none) => (nonce ++ P.Seal gcm.cipher.key nonce data [], none)

/-- The method `cryptoDriver.Decrypt`. -/
def cryptoDriver.Decrypt (P : Primitives) (this : cryptoDriver) (data : Bytes) :
    Outcome Bytes :=
  match this.Hash P this.key .MD5 with
  | (_, some err) => .ret [] (some (.tagged err))
  | (key, none) =>
    match aes_NewCipher key with
    | .error err => .ret [] (some (.tagged err))
    | .ok block =>
      match cipher_NewGCM block with
      | .error err => .ret [] (some (.tagged err))
      | .ok gcm =>
        let nonceSize := gcm.NonceSize
        match sliceAt data nonceSize with
        | .error p => .panic p
        | .ok (nonce, ciphertext) =>
          match P.Open gcm.cipher.key nonce ciphertext [] with
          | none => .ret [] (some (.tagged .openFailed))
          | some plaintext => .ret plaintext none

/-- The method `cryptoDriver.EncryptHEX`. -/
def cryptoDriver.EncryptHEX (P : Primitives) (this : cryptoDriver) (rand_Reader : Bytes)
    (data : Bytes) : Bytes × Option GoError :=
  match this.Encrypt P rand_Reader data with
  | (_, some err) => ([], some err)
  | (res, none) => (hex_EncodeToString res, none)

/-- The method `cryptoDriver.DecryptHex`. -/
def cryptoDriver.DecryptHex (P : Primitives) (this : cryptoDriver) (hexString : Bytes) :
    Outcome Bytes :=
  match hex_DecodeString hexString with
  | .error err => .ret [] (some (.tagged err))
  | .ok data => this.Decrypt P data

/-! ## encoding/base64 -/

/-- The alphabet of `base64.URLEncoding`:
`ABCDEFGHIJKLMNOPQRSTUVWXYZabcdefghijklmnopqrstuvwxyz0123456789-_`. -/
def encodeURL : List Byte :=
  [65, 66, 67, 68, 69, 70, 71, 72, 73, 74, 75, 76, 77, 78, 79, 80, 81, 82, 83, 84, 85, 86,
   87, 88, 89, 90,
   97, 98, 99, 100, 101, 102, 103, 104, 105, 106, 107, 108, 109, 110, 111, 112, 113, 114,
   115, 116, 117, 118, 119, 120, 121, 122,
   48, 49, 50, 51, 52, 53, 54, 55, 56, 57, 45, 95]

/-- The padding character `=` of `base64.URLEncoding`. -/
def padChar : Byte := 61

/-- The entry `enc.encode[i]`. -/
def base64_encode (i : Nat) : Byte := encodeURL.getD i 0

/-- The entry `enc.decodeMap[c]`: the position of `c` in the alphabet, `none`
where the table holds `0xff`. -/
def base64_decodeMap (c : Byte) : Option Nat :=
  let i := encodeURL.indexOf c
  if i < 64 then some i else none

/-- Go `base64.URLEncoding.EncodeToString`: three bytes become four characters, a
final group of one or two bytes is padded with `=`. -/
def base64_EncodeToString : Bytes → Bytes
  | [] => []
  | [a] =>
    let val := a.val * 65536
    [base64_encode (val / 262144 % 64), base64_encode (val / 4096 % 64), padChar, padChar]
  | [a, b] =>
    let val := a.val * 65536 + b.val * 256
    [base64_encode (val / 262144 % 64), base64_encode (val / 4096 % 64),
     base64_encode (val / 64 % 64), padChar]
  | a :: b :: c :: src =>
    let val := a.val * 65536 + b.val * 256 + c.val
    base64_encode (val / 262144 % 64) :: base64_encode (val / 4096 % 64)
      :: base64_encode (val / 64 % 64) :: base64_encode (val % 64)
      :: base64_EncodeToString src

/-- Decoding of the quanta of four characters of an input without line breaks:
a quantum ending in `=` or `==` must be the last one and yields two or one bytes,
anything else out of place is a `CorruptInputError`. -/
def base64_decodeQuanta : Bytes → Except GoError Bytes
  | [] => .ok []
  | c0 :: c1 :: c2 :: c3 :: src =>
    match base64_decodeMap c0, base64_decodeMap c1 with
    | some v0, some v1 =>
      if c2 = padChar then
        if c3 = padChar ∧ src = [] then
          let val := v0 * 262144 + v1 * 4096
          .ok [Fin.ofNat (val / 65536)]
        else .error .base64Corrupt
      else
        match base64_decodeMap c2 with
        | none => .error .base64Corrupt
        | some v2 =>
          if c3 = padChar then
            if src = [] then
              let val := v0 * 262144 + v1 * 4096 + v2 * 64
              .ok [Fin.ofNat (val / 65536), Fin.ofNat (val / 256)]
            else .error .base64Corrupt
          else
            match base64_decodeMap c3 with
            | none => .error .base64Corrupt
            | some v3 =>
              let val := v0 * 262144 + v1 * 4096 + v2 * 64 + v3
              match base64_decodeQuanta src with
              | .error e => .error e
              | .ok rest =>
                .ok (Fin.ofNat (val / 65536) :: Fin.ofNat (val / 256) :: Fin.ofNat val :: rest)
    | _, _ => .error .base64Corrupt
  | _ => .error .base64Corrupt

/-- Go `base64.URLEncoding.DecodeString`, its error and, when there is none, the
decoded bytes: `\r` and `\n` are skipped wherever they stand, the rest is decoded
quantum by quantum. -/
def base64_DecodeString (s : Bytes) : Except GoError Bytes :=
  base64_decodeQuanta (s.filter fun c => c ≠ 10 ∧ c ≠ 13)

/-- The method `cryptoDriver.EncryptBase64`. -/
def cryptoDriver.EncryptBase64 (P : Primitives) (this : cryptoDriver) (rand_Reader : Bytes)
    (data : Bytes) : Bytes × Option GoError :=
  match this.Encrypt P rand_Reader data with
  | (_, some err) => ([], some err)
  | (res, none) => (base64_EncodeToString res, none)

/-- The method `cryptoDriver.DecryptBase64`. -/
def cryptoDriver.DecryptBase64 (P : Primitives) (this : cryptoDriver)
    (base64String : Bytes) : Outcome Bytes :=
  match base64_DecodeString base64String with
  | .error err => .ret [] (some (.tagged err))
  | .ok data => this.Decrypt P data

/-! ## What the libraries promise -/

/-- The contract of `hash.Hash`: `Write` never returns an error. -/
def Primitives.WriteNeverFails (P : Primitives) : Prop :=
  ∀ (h : P.Hasher) (p : Bytes), (P.Write h p).2 = none

/-- The contract of `hmac.New(h, key)`: after one `Write`, `Sum(nil)` is a digest of
`h().Size()` bytes. -/
def Primitives.NominalDigest (P : Primitives) : Prop :=
  ∀ (c : HashCtor) (key p : Bytes),
    (P.Sum (P.Write (P.hmac_New c key) p).1).length = c.Size

/-- The contract of `cipher.AEAD`: `Open` undoes `Seal` for the same key, nonce
and additional data. -/
def Primitives.OpenSeal (P : Primitives) : Prop :=
  ∀ (key nonce plaintext aad : Bytes),
    P.Open key nonce (P.Seal key nonce plaintext aad) aad = some plaintext

/-- The contract of GCM with the standard tag: `Seal` appends the ciphertext, as
long as the plaintext, and a tag of 16 bytes. -/
def Primitives.SealLength (P : Primitives) : Prop :=
  ∀ (key nonce plaintext aad : Bytes),
    (P.Seal key nonce plaintext aad).length = plaintext.length + 16

/-! ## A small instance of the primitives

Used to evaluate the driver on concrete inputs: the keyed hash is a checksum of
key and data repeated to the digest length, the AEAD appends a 16-byte tag
computed from key and nonce and checks it on opening. -/

/-- Sum of the bytes of a sequence, modulo 256. -/
def checksum (bs : Bytes) : Byte := bs.foldl (fun acc b => acc + b) 0

/-- The tag of the small AEAD. -/
def toyTag (key nonce : Bytes) : Bytes := List.replicate 16 (checksum (key ++ nonce))

/-- A small instance of `Primitives`. -/
def toy : Primitives where
  Hasher := HashCtor × Bytes
  hmac_New := fun c key => (c, key)
  Write := fun h p => ((h.1, h.2 ++ p), none)
  Sum := fun h => List.replicate h.1.Size (checksum h.2)
  Seal := fun key nonce plaintext _ => plaintext ++ toyTag key nonce
  Open := fun key nonce ciphertext _ =>
    if 16 ≤ ciphertext.length ∧ ciphertext.drop (ciphertext.length - 16) = toyTag key nonce
    then some (ciphertext.take (ciphertext.length - 16)) else none

/-! ## Lemmas on the library models -/

theorem hextable_digit (i : Fin 16) :
    fromHexChar (hextable.getD i.val 0) = some i.val ∧ hextable.getD i.val 0 ∈ hextable := by
  revert i; decide

theorem hex_EncodeToString_length (bs : Bytes) :
    (hex_EncodeToString bs).length = 2 * bs.length := by
  induction bs with
  | nil => rfl
  | cons v src ih => simp only [hex_EncodeToString, List.length_cons, ih]; omega

theorem hex_EncodeToString_lowercase (bs : Bytes) :
    ∀ c ∈ hex_EncodeToString bs, c ∈ hextable := by
  induction bs with
  | nil => intro c hc; simp [hex_EncodeToString] at hc
  | cons v src ih =>
    intro c hc
    simp only [hex_EncodeToString, List.mem_cons] at hc
    have hi := (hextable_digit ⟨v.val / 16, by omega⟩).2
    have lo := (hextable_digit ⟨v.val % 16, by omega⟩).2
    rcases hc with h | h | h
    · rw [h]; exact hi
    · rw [h]; exact lo
    · exact ih c h

theorem hex_DecodeString_EncodeToString (bs : Bytes) :
    hex_DecodeString (hex_EncodeToString bs) = .ok bs := by
  induction bs with
  | nil => rfl
  | cons v src ih =>
    have hi := (hextable_digit ⟨v.val / 16, by omega⟩).1
    have lo := (hextable_digit ⟨v.val % 16, by omega⟩).1
    simp only [hex_EncodeToString, hex_DecodeString] at *
    rw [hi, lo]
    simp only [ih]
    congr 2
    apply Fin.ext
    simp only [Fin.ofNat, Fin.val_mk]
    omega

theorem encodeURL_digit (i : Fin 64) :
    base64_decodeMap (base64_encode i.val) = some i.val ∧ base64_encode i.val ≠ padChar ∧
      base64_encode i.val ≠ 10 ∧ base64_encode i.val ≠ 13 := by
  revert i; decide

theorem base64_decodeMap_encode (n : Nat) :
    base64_decodeMap (base64_encode (n % 64)) = some (n % 64) :=
  (encodeURL_digit ⟨n % 64, Nat.mod_lt _ (by decide)⟩).1

theorem base64_encode_ne_padChar (n : Nat) : base64_encode (n % 64) ≠ padChar :=
  (encodeURL_digit ⟨n % 64, Nat.mod_lt _ (by decide)⟩).2.1

theorem base64_encode_not_newline (n : Nat) :
    base64_encode (n % 64) ≠ 10 ∧ base64_encode (n % 64) ≠ 13 :=
  (encodeURL_digit ⟨n % 64, Nat.mod_lt _ (by decide)⟩).2.2

theorem base64_EncodeToString_not_newline (bs : Bytes) :
    ∀ c ∈ base64_EncodeToString bs, c ≠ 10 ∧ c ≠ 13 := by
  induction bs using base64_EncodeToString.induct with
  | case1 => intro c hc; simp [base64_EncodeToString] at hc
  | case2 a =>
    intro c hc
    simp only [base64_EncodeToString, List.mem_cons, List.mem_singleton, List.not_mem_nil,
      or_false] at hc
    rcases hc with h | h | h | h
    · rw [h]; exact base64_encode_not_newline _
    · rw [h]; exact base64_encode_not_newline _
    · rw [h]; decide
    · rw [h]; decide
  | case3 a b =>
    intro c hc
    simp only [base64_EncodeToString, List.mem_cons, List.mem_singleton, List.not_mem_nil,
      or_false] at hc
    rcases hc with h | h | h | h
    · rw [h]; exact base64_encode_not_newline _
    · rw [h]; exact base64_encode_not_newline _
    · rw [h]; exact base64_encode_not_newline _
    · rw [h]; decide
  | case4 a b c src ih =>
    intro x hx
    simp only [base64_EncodeToString, List.mem_cons] at hx
    rcases hx with h | h | h | h | h
    · rw [h]; exact base64_encode_not_newline _
    · rw [h]; exact base64_encode_not_newline _
    · rw [h]; exact base64_encode_not_newline _
    · rw [h]; exact base64_encode_not_newline _
    · exact ih x h

theorem base64_decodeQuanta_EncodeToString (bs : Bytes) :
    base64_decodeQuanta (base64_EncodeToString bs) = .ok bs := by
  induction bs using base64_EncodeToString.induct with
  | case1 => rfl
  | case2 a =>
    simp only [base64_EncodeToString, base64_decodeQuanta, base64_decodeMap_encode,
      and_self, if_true]
    congr 2
    apply Fin.ext
    simp only [Fin.ofNat, Fin.val_mk]
    omega
  | case3 a b =>
    simp only [base64_EncodeToString, base64_decodeQuanta, base64_decodeMap_encode,
      base64_encode_ne_padChar, if_true, if_false]
    congr 2
    · apply Fin.ext
      simp only [Fin.ofNat, Fin.val_mk]
      omega
    · congr 1
      apply Fin.ext
      simp only [Fin.ofNat, Fin.val_mk]
      omega
  | case4 a b c src ih =>
    simp only [base64_EncodeToString, base64_decodeQuanta, base64_decodeMap_encode,
      base64_encode_ne_padChar, if_false, ih]
    congr 2
    · apply Fin.ext
      simp only [Fin.ofNat, Fin.val_mk]
      omega
    · congr 1
      · apply Fin.ext
        simp only [Fin.ofNat, Fin.val_mk]
        omega
      · congr 1
        apply Fin.ext
        simp only [Fin.ofNat, Fin.val_mk]
        omega

theorem base64_DecodeString_EncodeToString (bs : Bytes) :
    base64_DecodeString (base64_EncodeToString bs) = .ok bs := by
  unfold base64_DecodeString
  rw [List.filter_eq_self.2, base64_decodeQuanta_EncodeToString]
  intro c hc
  have := base64_EncodeToString_not_newline bs c hc
  simp [this.1, this.2]


theorem filepath_Ext_loop_spec (path : Bytes) :
    ∀ n, n ≤ path.length → (∀ c ∈ path.drop n, c ≠ 46 ∧ c ≠ 47) →
      (∃ pre, pre ++ filepath_Ext_loop path n = path) ∧
      (∀ c ∈ (filepath_Ext_loop path n).tail, c ≠ 46 ∧ c ≠ 47) ∧
      (filepath_Ext_loop path n ≠ [] → (filepath_Ext_loop path n).head? = some 46) ∧
      (filepath_Ext_loop path n = [] → ∀ pre t, path = pre ++ 46 :: t → 47 ∈ t) := by
  intro n
  induction n with
  | zero =>
    intro _ hclean
    refine ⟨⟨path, by simp [filepath_Ext_loop]⟩, by simp [filepath_Ext_loop],
      by simp [filepath_Ext_loop], ?_⟩
    intro _ pre t hp
    have : (46 : Byte) ∈ path := by rw [hp]; simp
    exact absurd rfl (hclean 46 (by simpa using this)).1
  | succ i ih =>
    intro hi hclean
    have hlt : i < path.length := hi
    have hdrop : path.drop i = path[i] :: path.drop (i + 1) := List.drop_eq_getElem_cons hlt
    have hget : path.getD i 0 = path[i] := by
      simp [List.getD_eq_getElem?_getD, List.getElem?_eq_getElem hlt]
    simp only [filepath_Ext_loop, hget, os_IsPathSeparator, decide_eq_true_eq]
    by_cases h47 : path[i] = 47
    · simp only [h47, if_true]
      refine ⟨⟨path, by simp⟩, by simp, by simp, ?_⟩
      intro _ pre t hp
      have hsplit : path = path.take i ++ 47 :: path.drop (i + 1) := by
        conv_lhs => rw [← List.take_append_drop i path, hdrop, h47]
      rw [hsplit] at hp
      rcases List.append_eq_append_iff.1 hp with ⟨a1, h1, h2⟩ | ⟨c1, h1, h2⟩
      · cases a1 with
        | nil => simp at h2
        | cons x a2 =>
          simp only [List.cons_append, List.cons.injEq] at h2
          have : (46 : Byte) ∈ path.drop (i + 1) := by rw [h2.2]; simp
          exact absurd rfl (hclean 46 this).1
      · cases c1 with
        | nil => simp at h2
        | cons x c2 =>
          simp only [List.cons_append, List.cons.injEq] at h2
          rw [h2.2]; simp
    · simp only [h47, if_false]
      by_cases h46 : path[i] = 46
      · simp only [h46, if_true]
        refine ⟨⟨path.take i, List.take_append_drop i path⟩, ?_, ?_, ?_⟩
        · rw [hdrop]; exact hclean
        · intro _; rw [hdrop, h46]; rfl
        · intro h; rw [hdrop] at h; cases h
      · simp only [h46, if_false]
        apply ih (le_of_lt hlt)
        intro c hc
        rw [hdrop] at hc
        rcases List.mem_cons.1 hc with h | h
        · rw [h]; exact ⟨h46, h47⟩
        · exact hclean c h

theorem filepath_Ext_spec (path : Bytes) :
    (∃ pre, pre ++ filepath_Ext path = path) ∧
    (∀ c ∈ (filepath_Ext path).tail, c ≠ 46 ∧ c ≠ 47) ∧
    (filepath_Ext path ≠ [] → (filepath_Ext path).head? = some 46) ∧
    (filepath_Ext path = [] → ∀ pre t, path = pre ++ 46 :: t → 47 ∈ t) :=
  filepath_Ext_loop_spec path path.length (le_refl _) (by simp)

/-- The value `Hash` returns for each supported identifier once `Write` has
returned no error: the hex text of the digest of the constructor whose size
`HashSize` reports. -/
theorem Hash_supported (P : Primitives) (this : cryptoDriver) (data : Bytes)
    (algo : HashAlgo) (hw : P.WriteNeverFails) (ha : algo ∈ supportedAlgos) :
    ∃ c : HashCtor, (c.Size : Int) = cryptoDriver.HashSize algo ∧
      this.Hash P data algo
        = (hex_EncodeToString (P.Sum (P.Write (P.hmac_New c this.key) data).1), none) := by
  have key : ∀ c : HashCtor,
      (match P.Write (P.hmac_New c this.key) data with
        | (_, some err) => (([] : Bytes), some (GoError.tagged err))
        | (hasher, none) => (hex_EncodeToString (P.Sum hasher), none))
      = (hex_EncodeToString (P.Sum (P.Write (P.hmac_New c this.key) data).1), none) := by
    intro c
    have h := hw (P.hmac_New c this.key) data
    rcases hq : P.Write (P.hmac_New c this.key) data with ⟨st, e⟩
    rw [hq] at h
    simp only at h
    subst h
    rfl
  cases algo with
  | invalid tag => simp [supportedAlgos] at ha
  | MD4 => exact ⟨.md4_New, rfl, key _⟩
  | MD5 => exact ⟨.md5_New, rfl, key _⟩
  | SHA1 => exact ⟨.sha1_New, rfl, key _⟩
  | SHA256 => exact ⟨.sha256_New, rfl, key _⟩
  | SHA256224 => exact ⟨.sha256_New224, rfl, key _⟩
  | SHA512 => exact ⟨.sha512_New, rfl, key _⟩
  | SHA512224 => exact ⟨.sha512_New512_224, rfl, key _⟩
  | SHA512256 => exact ⟨.sha512_New512_256, rfl, key _⟩
  | SHA384 => exact ⟨.sha512_New384, rfl, key _⟩
  | SHA3224 => exact ⟨.sha3_New224, rfl, key _⟩
  | SHA3256 => exact ⟨.sha3_New256, rfl, key _⟩
  | SHA3384 => exact ⟨.sha3_New384, rfl, key _⟩
  | SHA3512 => exact ⟨.sha3_New512, rfl, key _⟩
  | KECCAK256 => exact ⟨.sha3_NewLegacyKeccak256, rfl, key _⟩
  | KECCAK512 => exact ⟨.sha3_NewLegacyKeccak512, rfl, key _⟩

theorem Hash_invalid (P : Primitives) (this : cryptoDriver) (data : Bytes) (tag : Nat) :
    this.Hash P data (.invalid tag) = ([], some (.invalidHasher (.invalid tag))) := rfl

theorem not_supported_iff (algo : HashAlgo) :
    algo ∉ supportedAlgos ↔ ∃ tag, algo = .invalid tag := by
  cases algo <;> simp [supportedAlgos]

theorem toy_WriteNeverFails : toy.WriteNeverFails := fun _ _ => rfl

theorem toy_NominalDigest : toy.NominalDigest := by
  intro c key p
  simp [toy]

/-! ## Hashing: sizes, lengths, checks and invalid identifiers -/

/-- C3: `HashSize` returns the documented digest length for each of the fifteen
supported identifiers and `-1` for every identifier outside that set. -/
theorem HashSize_table :
    cryptoDriver.HashSize .MD4 = 16 ∧ cryptoDriver.HashSize .MD5 = 16 ∧
    cryptoDriver.HashSize .SHA1 = 20 ∧ cryptoDriver.HashSize .SHA256 = 32 ∧
    cryptoDriver.HashSize .SHA256224 = 28 ∧ cryptoDriver.HashSize .SHA512 = 64 ∧
    cryptoDriver.HashSize .SHA512224 = 28 ∧ cryptoDriver.HashSize .SHA512256 = 32 ∧
    cryptoDriver.HashSize .SHA384 = 48 ∧ cryptoDriver.HashSize .SHA3224 = 28 ∧
    cryptoDriver.HashSize .SHA3256 = 32 ∧ cryptoDriver.HashSize .SHA3384 = 48 ∧
    cryptoDriver.HashSize .SHA3512 = 64 ∧ cryptoDriver.HashSize .KECCAK256 = 32 ∧
    cryptoDriver.HashSize .KECCAK512 = 64 ∧
    ∀ algo : HashAlgo, algo ∉ supportedAlgos → cryptoDriver.HashSize algo = -1 := by
  refine ⟨rfl, rfl, rfl, rfl, rfl, rfl, rfl, rfl, rfl, rfl, rfl, rfl, rfl, rfl, rfl, ?_⟩
  intro algo h
  obtain ⟨tag, rfl⟩ := (not_supported_iff algo).1 h
  rfl

/-- C4: for every key, input and supported identifier, `Hash` succeeds and its hex
text is exactly `2 * HashSize` characters long, given that `Write` returns no error
and each keyed hash outputs its nominal digest length. -/
theorem Hash_length_eq_two_mul_HashSize (P : Primitives) (this : cryptoDriver)
    (data : Bytes) (algo : HashAlgo) (hw : P.WriteNeverFails) (hn : P.NominalDigest)
    (ha : algo ∈ supportedAlgos) :
    (this.Hash P data algo).2 = none ∧
    ((this.Hash P data algo).1.length : Int) = 2 * cryptoDriver.HashSize algo := by
  obtain ⟨c, hc, he⟩ := Hash_supported P this data algo hw ha
  rw [he]
  refine ⟨rfl, ?_⟩
  simp only [hex_EncodeToString_length, hn c this.key data, ← hc]
  push_cast
  rfl

theorem Hash_length_eq_two_mul_HashSize_witness :
    toy.WriteNeverFails ∧ toy.NominalDigest ∧ HashAlgo.SHA3384 ∈ supportedAlgos ∧
    ((cryptoDriver.mk [1, 2]).Hash toy [104, 105] .SHA3384).2 = none ∧
    (((cryptoDriver.mk [1, 2]).Hash toy [104, 105] .SHA3384).1.length : Int)
      = 2 * cryptoDriver.HashSize .SHA3384 :=
  ⟨toy_WriteNeverFails, toy_NominalDigest, by decide,
    Hash_length_eq_two_mul_HashSize toy ⟨[1, 2]⟩ [104, 105] .SHA3384
      toy_WriteNeverFails toy_NominalDigest (by decide)⟩

/-- C5: for every key, input `d` and supported identifier, `Check` of `d` against
`Hash(d)` is true without error, against `Hash(d)` followed by `x` it is false
without error, and in general `Check` returns no error and is true exactly when
the given hash equals `Hash(d)` (given that `Write` returns no error). -/
theorem Check_true_iff_eq_Hash (P : Primitives) (this : cryptoDriver) (data : Bytes)
    (algo : HashAlgo) (hw : P.WriteNeverFails) (ha : algo ∈ supportedAlgos) :
    this.Check P data (this.Hash P data algo).1 algo = (true, none) ∧
    this.Check P data ((this.Hash P data algo).1 ++ [120]) algo = (false, none) ∧
    ∀ hash : Bytes, (this.Check P data hash algo).2 = none ∧
      ((this.Check P data hash algo).1 = true ↔ hash = (this.Hash P data algo).1) := by
  obtain ⟨c, -, he⟩ := Hash_supported P this data algo hw ha
  simp only [cryptoDriver.Check, he]
  refine ⟨by simp, by simp, ?_⟩
  intro hash
  simp only [decide_eq_true_eq, true_and]
  exact eq_comm

theorem Check_true_iff_eq_Hash_witness :
    toy.WriteNeverFails ∧ HashAlgo.MD5 ∈ supportedAlgos ∧
    (cryptoDriver.mk [7]).Check toy [104, 105]
      ((cryptoDriver.mk [7]).Hash toy [104, 105] .MD5).1 .MD5 = (true, none) ∧
    (cryptoDriver.mk [7]).Check toy [104, 105]
      (((cryptoDriver.mk [7]).Hash toy [104, 105] .MD5).1 ++ [120]) .MD5 = (false, none) ∧
    ∀ hash : Bytes, ((cryptoDriver.mk [7]).Check toy [104, 105] hash .MD5).2 = none ∧
      (((cryptoDriver.mk [7]).Check toy [104, 105] hash .MD5).1 = true
        ↔ hash = ((cryptoDriver.mk [7]).Hash toy [104, 105] .MD5).1) :=
  ⟨toy_WriteNeverFails, by decide,
    Check_true_iff_eq_Hash toy ⟨[7]⟩ [104, 105] .MD5 toy_WriteNeverFails (by decide)⟩

/-- C6: given that `Write` returns no error, `Hash` returns an error exactly for
the identifiers outside the supported set, which are exactly those with
`HashSize = -1`; the error is the invalid-hasher error and comes with an empty
digest; `Check` and `HashFilename` return an error for the same identifiers. -/
theorem Hash_error_iff_not_supported (P : Primitives) (this : cryptoDriver)
    (data : Bytes) (u : HashAlgo) (hw : P.WriteNeverFails) :
    ((this.Hash P data u).2 ≠ none ↔ u ∉ supportedAlgos) ∧
    (u ∉ supportedAlgos ↔ cryptoDriver.HashSize u = -1) ∧
    (u ∉ supportedAlgos → this.Hash P data u = ([], some (.invalidHasher u))) ∧
    ((this.Hash P data u).2 ≠ none → (this.Hash P data u).1 = []) ∧
    (∀ hash : Bytes, (this.Check P data hash u).2 ≠ none ↔ u ∉ supportedAlgos) ∧
    (∀ nanosecond : Nat,
      (this.HashFilename P nanosecond data u).2 ≠ none ↔ u ∉ supportedAlgos) := by
  by_cases hu : u ∈ supportedAlgos
  · obtain ⟨c, hc, he⟩ := Hash_supported P this data u hw hu
    have hsz : cryptoDriver.HashSize u ≠ -1 := by omega
    refine ⟨by simp [he, hu], by simp [hu, hsz], fun h => absurd hu h, by simp [he], ?_, ?_⟩
    · intro hash
      simp [cryptoDriver.Check, he, hu]
    · intro nanosecond
      obtain ⟨c2, -, he2⟩ :=
        Hash_supported P this (fmt_Sprintf_at data nanosecond) u hw hu
      simp [cryptoDriver.HashFilename, he2, hu]
  · obtain ⟨tag, rfl⟩ := (not_supported_iff u).1 hu
    refine ⟨by simp [Hash_invalid, hu], by simp [hu, cryptoDriver.HashSize],
      fun _ => rfl, fun _ => rfl, ?_, ?_⟩
    · intro hash
      simp [cryptoDriver.Check, Hash_invalid, hu]
    · intro nanosecond
      simp [cryptoDriver.HashFilename, Hash_invalid, hu]

theorem Hash_error_iff_not_supported_witness :
    toy.WriteNeverFails ∧
    (((cryptoDriver.mk [7]).Hash toy [104, 105] (.invalid 3)).2 ≠ none
      ↔ HashAlgo.invalid 3 ∉ supportedAlgos) ∧
    (HashAlgo.invalid 3 ∉ supportedAlgos ↔ cryptoDriver.HashSize (.invalid 3) = -1) ∧
    (HashAlgo.invalid 3 ∉ supportedAlgos → (cryptoDriver.mk [7]).Hash toy [104, 105]
      (.invalid 3) = ([], some (.invalidHasher (.invalid 3)))) ∧
    (((cryptoDriver.mk [7]).Hash toy [104, 105] (.invalid 3)).2 ≠ none →
      ((cryptoDriver.mk [7]).Hash toy [104, 105] (.invalid 3)).1 = []) ∧
    (∀ hash : Bytes, ((cryptoDriver.mk [7]).Check toy [104, 105] hash (.invalid 3)).2 ≠ none
      ↔ HashAlgo.invalid 3 ∉ supportedAlgos) ∧
    (∀ nanosecond : Nat,
      ((cryptoDriver.mk [7]).HashFilename toy nanosecond [104, 105] (.invalid 3)).2 ≠ none
        ↔ HashAlgo.invalid 3 ∉ supportedAlgos) :=
  ⟨toy_WriteNeverFails,
    Hash_error_iff_not_supported toy ⟨[7]⟩ [104, 105] (.invalid 3) toy_WriteNeverFails⟩

/-! ## Encryption: key derivation and cipher setup -/

theorem Hash_MD5 (P : Primitives) (this : cryptoDriver) (data : Bytes)
    (hw : P.WriteNeverFails) :
    this.Hash P data .MD5
      = (hex_EncodeToString (P.Sum (P.Write (P.hmac_New .md5_New this.key) data).1), none) := by
  have h := hw (P.hmac_New .md5_New this.key) data
  simp only [cryptoDriver.Hash]
  rcases hq : P.Write (P.hmac_New .md5_New this.key) data with ⟨st, e⟩
  rw [hq] at h
  simp only at h
  subst h
  rfl

theorem aes_NewCipher_ok (key : Bytes) (block : Block) (h : aes_NewCipher key = .ok block) :
    block = { key := key } := by
  simp only [aes_NewCipher] at h
  split at h
  · injection h with h; exact h.symm
  · cases h

theorem aes_NewCipher_32 (key : Bytes) (h : key.length = 32) :
    aes_NewCipher key = .ok { key := key } := by
  simp [aes_NewCipher, h]

theorem cipher_NewGCM_eq (block : Block) :
    cipher_NewGCM block = .ok { cipher := block, nonceSize := 12, tagSize := 16 } := by
  simp [cipher_NewGCM, Block.BlockSize]

/-- With the cipher set up on `key`, `Encrypt` reads the nonce and seals. -/
theorem Encrypt_of_setup (P : Primitives) (this : cryptoDriver) (rand_Reader data key : Bytes)
    (hk : this.Hash P this.key .MD5 = (key, none))
    (hc : aes_NewCipher key = .ok { key := key }) :
    this.Encrypt P rand_Reader data =
      if 12 ≤ rand_Reader.length then
        (rand_Reader.take 12 ++ P.Seal key (rand_Reader.take 12) data [], none)
      else ([], some (.tagged .randRead)) := by
  by_cases h : 12 ≤ rand_Reader.length <;>
    simp [cryptoDriver.Encrypt, hk, hc, cipher_NewGCM_eq, GCM.NonceSize, io_ReadFull, h]

/-- With the cipher set up on `key`, `Decrypt` slices its input at 12 and opens. -/
theorem Decrypt_of_setup (P : Primitives) (this : cryptoDriver) (data key : Bytes)
    (hk : this.Hash P this.key .MD5 = (key, none))
    (hc : aes_NewCipher key = .ok { key := key }) :
    this.Decrypt P data =
      if 12 ≤ data.length then
        match P.Open key (data.take 12) (data.drop 12) [] with
        | none => .ret [] (some (.tagged .openFailed))
        | some plaintext => .ret plaintext none
      else .panic (.sliceBounds 12 data.length) := by
  by_cases h : 12 ≤ data.length <;>
    simp [cryptoDriver.Decrypt, hk, hc, cipher_NewGCM_eq, GCM.NonceSize, sliceAt, h]

/-- A successful `Encrypt` went through a successful cipher setup. -/
theorem Encrypt_success (P : Primitives) (this : cryptoDriver) (rand_Reader data e : Bytes)
    (he : this.Encrypt P rand_Reader data = (e, none)) :
    ∃ key, this.Hash P this.key .MD5 = (key, none) ∧
      aes_NewCipher key = .ok { key := key } ∧ 12 ≤ rand_Reader.length ∧
      e = rand_Reader.take 12 ++ P.Seal key (rand_Reader.take 12) data [] := by
  rcases hk : this.Hash P this.key .MD5 with ⟨key, _ | err⟩
  · rcases hc : aes_NewCipher key with err | block
    · simp [cryptoDriver.Encrypt, hk, hc] at he
    · have hb := aes_NewCipher_ok key block hc
      subst hb
      refine ⟨key, rfl, hc, ?_⟩
      rw [Encrypt_of_setup P this rand_Reader data key hk hc] at he
      split at he
      · rename_i h
        injection he with he1 _
        exact ⟨h, he1.symm⟩
      · cases he
  · simp [cryptoDriver.Encrypt, hk] at he

/-- The key derivation: given the contracts of the keyed hash, the MD5 hex text is
32 bytes long and `aes.NewCipher` accepts it. -/
theorem derived_key (P : Primitives) (this : cryptoDriver) (hw : P.WriteNeverFails)
    (hn : P.NominalDigest) :
    ∃ key, this.Hash P this.key .MD5 = (key, none) ∧
      key = hex_EncodeToString (P.Sum (P.Write (P.hmac_New .md5_New this.key) this.key).1) ∧
      key.length = 32 ∧ aes_NewCipher key = .ok { key := key } := by
  have hlen : (hex_EncodeToString
      (P.Sum (P.Write (P.hmac_New .md5_New this.key) this.key).1)).length = 32 := by
    rw [hex_EncodeToString_length, hn .md5_New this.key this.key]
    rfl
  exact ⟨_, Hash_MD5 P this this.key hw, rfl, hlen, aes_NewCipher_32 _ hlen⟩

theorem toy_OpenSeal : toy.OpenSeal := by
  intro key nonce plaintext aad
  simp [toy, toyTag]

theorem toy_SealLength : toy.SealLength := by
  intro key nonce plaintext aad
  simp [toy, toyTag]

/-! ## Encryption: envelope, round trip and short inputs -/

theorem Decrypt_of_Encrypt_success (P : Primitives) (this : cryptoDriver)
    (rand_Reader p e : Bytes) (ho : P.OpenSeal)
    (he : this.Encrypt P rand_Reader p = (e, none)) : this.Decrypt P e = .ret p none := by
  obtain ⟨key, hk, hc, hr, rfl⟩ := Encrypt_success P this rand_Reader p e he
  have hn : (rand_Reader.take 12).length = 12 := by
    rw [List.length_take]; omega
  rw [Decrypt_of_setup P this _ key hk hc, if_pos (by rw [List.length_append]; omega)]
  rw [List.take_append_of_le_length (by omega), List.take_take,
    List.drop_append_of_le_length (by omega), List.drop_eq_nil_of_le (by omega)]
  simp only [min_self, List.nil_append]
  rw [ho]

/-- C8: for every secret key, the AES key of `Encrypt` and of `Decrypt` is the hex
text of the MD5 keyed hash of the secret keyed by the secret: lowercase hex digits,
32 bytes long, so `aes.NewCipher` and `cipher.NewGCM` return no error and both
methods go straight on to the nonce with that key (given the contracts of the keyed
hash: `Write` returns no error and the digest has its nominal length). -/
theorem aes_key_is_md5_hex (P : Primitives) (this : cryptoDriver)
    (hw : P.WriteNeverFails) (hn : P.NominalDigest) :
    this.Hash P this.key .MD5
      = (hex_EncodeToString (P.Sum (P.Write (P.hmac_New .md5_New this.key) this.key).1),
          none) ∧
    (∀ c ∈ (this.Hash P this.key .MD5).1, c ∈ hextable) ∧
    (this.Hash P this.key .MD5).1.length = 32 ∧
    aes_NewCipher (this.Hash P this.key .MD5).1
      = .ok { key := (this.Hash P this.key .MD5).1 } ∧
    cipher_NewGCM { key := (this.Hash P this.key .MD5).1 }
      = .ok { cipher := { key := (this.Hash P this.key .MD5).1 },
              nonceSize := 12, tagSize := 16 } ∧
    (∀ rand_Reader data : Bytes, this.Encrypt P rand_Reader data =
      if 12 ≤ rand_Reader.length then
        (rand_Reader.take 12
          ++ P.Seal (this.Hash P this.key .MD5).1 (rand_Reader.take 12) data [], none)
      else ([], some (.tagged .randRead))) ∧
    (∀ data : Bytes, this.Decrypt P data =
      if 12 ≤ data.length then
        match P.Open (this.Hash P this.key .MD5).1 (data.take 12) (data.drop 12) [] with
        | none => .ret [] (some (.tagged .openFailed))
        | some plaintext => .ret plaintext none
      else .panic (.sliceBounds 12 data.length)) := by
  obtain ⟨key, hk, hkey, hlen, hc⟩ := derived_key P this hw hn
  rw [hk]
  refine ⟨by rw [hkey], ?_, hlen, hc, cipher_NewGCM_eq _, ?_, ?_⟩
  · rw [hkey]; exact hex_EncodeToString_lowercase _
  · intro rand_Reader data
    exact Encrypt_of_setup P this rand_Reader data key hk hc
  · intro data
    exact Decrypt_of_setup P this data key hk hc

theorem aes_key_is_md5_hex_witness :
    toy.WriteNeverFails ∧ toy.NominalDigest ∧
    ((cryptoDriver.mk []).Hash toy [] .MD5).1.length = 32 ∧
    aes_NewCipher ((cryptoDriver.mk []).Hash toy [] .MD5).1
      = .ok { key := ((cryptoDriver.mk []).Hash toy [] .MD5).1 } :=
  ⟨toy_WriteNeverFails, toy_NominalDigest,
    (aes_key_is_md5_hex toy ⟨[]⟩ toy_WriteNeverFails toy_NominalDigest).2.2.1,
    (aes_key_is_md5_hex toy ⟨[]⟩ toy_WriteNeverFails toy_NominalDigest).2.2.2.1⟩

/-- C9: a successful `Encrypt` of `p` returns the nonce read from the random source
followed by what `Seal` appends for that nonce, `p` and no additional data: its
first 12 bytes are the nonce, the rest is the sealed value, its length is
`12 + len(p) + 16` (given that `Seal` appends `len(p) + 16` bytes); `Decrypt` opens
the first 12 bytes of its input as nonce against the rest, with the same key. -/
theorem Encrypt_envelope_layout (P : Primitives) (this : cryptoDriver)
    (rand_Reader p e : Bytes) (hs : P.SealLength)
    (he : this.Encrypt P rand_Reader p = (e, none)) :
    (rand_Reader.take 12).length = 12 ∧
    e = rand_Reader.take 12
          ++ P.Seal (this.Hash P this.key .MD5).1 (rand_Reader.take 12) p [] ∧
    e.take 12 = rand_Reader.take 12 ∧
    e.drop 12 = P.Seal (this.Hash P this.key .MD5).1 (rand_Reader.take 12) p [] ∧
    e.length = 12 + p.length + 16 ∧
    (∀ g : GCM, cipher_NewGCM { key := (this.Hash P this.key .MD5).1 } = .ok g →
      g.NonceSize = 12) ∧
    (∀ data : Bytes, 12 ≤ data.length → this.Decrypt P data =
      match P.Open (this.Hash P this.key .MD5).1 (data.take 12) (data.drop 12) [] with
      | none => .ret [] (some (.tagged .openFailed))
      | some plaintext => .ret plaintext none) := by
  obtain ⟨key, hk, hc, hr, rfl⟩ := Encrypt_success P this rand_Reader p e he
  have hn : (rand_Reader.take 12).length = 12 := by
    rw [List.length_take]; omega
  rw [hk]
  refine ⟨hn, rfl, ?_, ?_, ?_, ?_, ?_⟩
  · rw [List.take_append_of_le_length (by omega), List.take_take]; simp
  · rw [List.drop_append_of_le_length (by omega), List.drop_eq_nil_of_le (by omega)]; rfl
  · rw [List.length_append, hn, hs]; omega
  · intro g hg
    rw [cipher_NewGCM_eq] at hg
    injection hg with hg
    subst hg
    rfl
  · intro data hd
    rw [Decrypt_of_setup P this data key hk hc, if_pos hd]

theorem Encrypt_envelope_layout_witness :
    toy.SealLength ∧
    (cryptoDriver.mk [7]).Encrypt toy [1, 2, 3, 4, 5, 6, 7, 8, 9, 10, 11, 12, 13] [104, 105]
      = ([1, 2, 3, 4, 5, 6, 7, 8, 9, 10, 11, 12, 104, 105, 158, 158, 158, 158, 158, 158, 158,
          158, 158, 158, 158, 158, 158, 158, 158, 158], none) ∧
    ([1, 2, 3, 4, 5, 6, 7, 8, 9, 10, 11, 12, 104, 105, 158, 158, 158, 158, 158, 158, 158,
      158, 158, 158, 158, 158, 158, 158, 158, 158] : Bytes).length = 12 + 2 + 16 :=
  ⟨toy_SealLength, by decide,
    (Encrypt_envelope_layout toy ⟨[7]⟩ [1, 2, 3, 4, 5, 6, 7, 8, 9, 10, 11, 12, 13] [104, 105]
      _ toy_SealLength (by decide)).2.2.2.2.1⟩

/-- C1: for every key, plaintext `p` and state of the random source, if `Encrypt`
of `p` succeeds with envelope `e` then `Decrypt` of `e` with the same key returns
exactly `p` and no error (given that `Open` undoes `Seal`). -/
theorem Decrypt_Encrypt (P : Primitives) (this : cryptoDriver) (rand_Reader p e : Bytes)
    (ho : P.OpenSeal) (he : this.Encrypt P rand_Reader p = (e, none)) :
    this.Decrypt P e = .ret p none :=
  Decrypt_of_Encrypt_success P this rand_Reader p e ho he

theorem Decrypt_Encrypt_witness :
    toy.OpenSeal ∧
    (cryptoDriver.mk [7]).Encrypt toy [1, 2, 3, 4, 5, 6, 7, 8, 9, 10, 11, 12, 13] []
      = ([1, 2, 3, 4, 5, 6, 7, 8, 9, 10, 11, 12, 158, 158, 158, 158, 158, 158, 158,
          158, 158, 158, 158, 158, 158, 158, 158, 158], none) ∧
    (cryptoDriver.mk [7]).Decrypt toy
      [1, 2, 3, 4, 5, 6, 7, 8, 9, 10, 11, 12, 158, 158, 158, 158, 158, 158, 158,
        158, 158, 158, 158, 158, 158, 158, 158, 158] = .ret [] none :=
  ⟨toy_OpenSeal, by decide,
    Decrypt_Encrypt toy ⟨[7]⟩ [1, 2, 3, 4, 5, 6, 7, 8, 9, 10, 11, 12, 13] [] _
      toy_OpenSeal (by decide)⟩

/-- C2: what the code does on an input shorter than the nonce: for every key and
every input of fewer than 12 bytes, the empty one included, `Decrypt` gets through
the cipher setup and then panics in the slice expressions `data[:nonceSize]`,
`data[nonceSize:]`; it returns no error value. -/
theorem Decrypt_short_input_panics (P : Primitives) (this : cryptoDriver) (data : Bytes)
    (hw : P.WriteNeverFails) (hn : P.NominalDigest) (hlen : data.length < 12) :
    this.Decrypt P data = .panic (.sliceBounds 12 data.length) := by
  obtain ⟨key, hk, -, -, hc⟩ := derived_key P this hw hn
  rw [Decrypt_of_setup P this data key hk hc, if_neg (by omega)]

theorem Decrypt_short_input_panics_witness :
    toy.WriteNeverFails ∧ toy.NominalDigest ∧ ([] : Bytes).length < 12 ∧
    (cryptoDriver.mk [115, 101, 99, 114, 101, 116]).Decrypt toy []
      = .panic (.sliceBounds 12 0) :=
  ⟨toy_WriteNeverFails, toy_NominalDigest, by decide,
    Decrypt_short_input_panics toy ⟨[115, 101, 99, 114, 101, 116]⟩ []
      toy_WriteNeverFails toy_NominalDigest (by decide)⟩

/-! ## Text encodings of the envelope and hashed file names -/

theorem EncryptHEX_success (P : Primitives) (this : cryptoDriver) (rand_Reader p s : Bytes)
    (h : this.EncryptHEX P rand_Reader p = (s, none)) :
    ∃ e, this.Encrypt P rand_Reader p = (e, none) ∧ s = hex_EncodeToString e := by
  rcases he : this.Encrypt P rand_Reader p with ⟨e, _ | err⟩
  · simp only [cryptoDriver.EncryptHEX, he, Prod.mk.injEq, and_true] at h
    exact ⟨e, rfl, h.symm⟩
  · simp [cryptoDriver.EncryptHEX, he] at h

theorem EncryptBase64_success (P : Primitives) (this : cryptoDriver)
    (rand_Reader p s : Bytes) (h : this.EncryptBase64 P rand_Reader p = (s, none)) :
    ∃ e, this.Encrypt P rand_Reader p = (e, none) ∧ s = base64_EncodeToString e := by
  rcases he : this.Encrypt P rand_Reader p with ⟨e, _ | err⟩
  · simp only [cryptoDriver.EncryptBase64, he, Prod.mk.injEq, and_true] at h
    exact ⟨e, rfl, h.symm⟩
  · simp [cryptoDriver.EncryptBase64, he] at h

/-- C7: for every key and plaintext `p`, whenever `EncryptHEX` (or `EncryptBase64`)
of `p` succeeds, `DecryptHex` (or `DecryptBase64`) of its text returns exactly `p`:
the hex, respectively URL-safe base64, decoder inverts the encoder on every byte
sequence, and the decoded envelope is opened to `p` (given that `Open` undoes
`Seal`). -/
theorem DecryptHex_EncryptHEX_DecryptBase64_EncryptBase64 (P : Primitives)
    (this : cryptoDriver) (rand_Reader p : Bytes) (ho : P.OpenSeal) :
    (∀ s, this.EncryptHEX P rand_Reader p = (s, none) → this.DecryptHex P s = .ret p none) ∧
    (∀ s, this.EncryptBase64 P rand_Reader p = (s, none) →
      this.DecryptBase64 P s = .ret p none) ∧
    (∀ e : Bytes, hex_DecodeString (hex_EncodeToString e) = .ok e) ∧
    (∀ e : Bytes, base64_DecodeString (base64_EncodeToString e) = .ok e) := by
  refine ⟨?_, ?_, hex_DecodeString_EncodeToString, base64_DecodeString_EncodeToString⟩
  · intro s hs
    obtain ⟨e, he, rfl⟩ := EncryptHEX_success P this rand_Reader p s hs
    simp only [cryptoDriver.DecryptHex, hex_DecodeString_EncodeToString]
    exact Decrypt_of_Encrypt_success P this rand_Reader p e ho he
  · intro s hs
    obtain ⟨e, he, rfl⟩ := EncryptBase64_success P this rand_Reader p s hs
    simp only [cryptoDriver.DecryptBase64, base64_DecodeString_EncodeToString]
    exact Decrypt_of_Encrypt_success P this rand_Reader p e ho he

theorem DecryptHex_EncryptHEX_DecryptBase64_EncryptBase64_witness :
    toy.OpenSeal ∧
    (cryptoDriver.mk [7]).EncryptHEX toy [1, 2, 3, 4, 5, 6, 7, 8, 9, 10, 11, 12, 13] [104, 105]
      = ([48, 49, 48, 50, 48, 51, 48, 52, 48, 53, 48, 54, 48, 55, 48, 56, 48, 57, 48, 97, 48,
          98, 48, 99, 54, 56, 54, 57, 57, 101, 57, 101, 57, 101, 57, 101, 57, 101, 57, 101, 57,
          101, 57, 101, 57, 101, 57, 101, 57, 101, 57, 101, 57, 101, 57, 101, 57, 101, 57,
          101], none) ∧
    (cryptoDriver.mk [7]).DecryptHex toy
      [48, 49, 48, 50, 48, 51, 48, 52, 48, 53, 48, 54, 48, 55, 48, 56, 48, 57, 48, 97, 48,
        98, 48, 99, 54, 56, 54, 57, 57, 101, 57, 101, 57, 101, 57, 101, 57, 101, 57, 101, 57,
        101, 57, 101, 57, 101, 57, 101, 57, 101, 57, 101, 57, 101, 57, 101, 57, 101, 57,
        101] = .ret [104, 105] none ∧
    (cryptoDriver.mk [7]).EncryptBase64 toy [1, 2, 3, 4, 5, 6, 7, 8, 9, 10, 11, 12, 13]
        [104, 105]
      = ([65, 81, 73, 68, 66, 65, 85, 71, 66, 119, 103, 74, 67, 103, 115, 77, 97, 71, 109,
          101, 110, 112, 54, 101, 110, 112, 54, 101, 110, 112, 54, 101, 110, 112, 54, 101, 110,
          112, 54, 101], none) ∧
    (cryptoDriver.mk [7]).DecryptBase64 toy
      [65, 81, 73, 68, 66, 65, 85, 71, 66, 119, 103, 74, 67, 103, 115, 77, 97, 71, 109,
        101, 110, 112, 54, 101, 110, 112, 54, 101, 110, 112, 54, 101, 110, 112, 54, 101, 110,
        112, 54, 101] = .ret [104, 105] none :=
  ⟨toy_OpenSeal, by decide,
    (DecryptHex_EncryptHEX_DecryptBase64_EncryptBase64 toy ⟨[7]⟩
      [1, 2, 3, 4, 5, 6, 7, 8, 9, 10, 11, 12, 13] [104, 105] toy_OpenSeal).1 _ (by decide),
    by decide,
    (DecryptHex_EncryptHEX_DecryptBase64_EncryptBase64 toy ⟨[7]⟩
      [1, 2, 3, 4, 5, 6, 7, 8, 9, 10, 11, 12, 13] [104, 105] toy_OpenSeal).2.1 _ (by decide)⟩

/-- C10: for every key, file name `f`, supported identifier and clock reading `t`,
`HashFilename` succeeds and returns `Hash` of `f`, `-at-` and the decimal text of
`t`, followed by `filepath.Ext(f)`; the stem is made of lowercase hex digits and is
`2 * HashSize` long; the extension is a suffix of `f` that is empty or starts at a
dot and has no further dot or separator, and it is empty only when no dot is in the
final path element; for `report.pdf` it is `.pdf` and the SHA256 stem has 64
characters (given the contracts of the keyed hash). -/
theorem HashFilename_eq_Hash_append_Ext (P : Primitives) (this : cryptoDriver)
    (nanosecond : Nat) (filename : Bytes) (algo : HashAlgo) (hw : P.WriteNeverFails)
    (hn : P.NominalDigest) (ha : algo ∈ supportedAlgos) :
    this.HashFilename P nanosecond filename algo
      = ((this.Hash P (filename ++ [45, 97, 116, 45] ++ fmt_decimal nanosecond) algo).1
          ++ filepath_Ext filename, none) ∧
    (this.Hash P (filename ++ [45, 97, 116, 45] ++ fmt_decimal nanosecond) algo).2 = none ∧
    ((this.Hash P (filename ++ [45, 97, 116, 45] ++ fmt_decimal nanosecond) algo).1.length
      : Int) = 2 * cryptoDriver.HashSize algo ∧
    (∀ c ∈ (this.Hash P (filename ++ [45, 97, 116, 45] ++ fmt_decimal nanosecond) algo).1,
      c ∈ hextable) ∧
    (∃ pre, pre ++ filepath_Ext filename = filename) ∧
    (∀ c ∈ (filepath_Ext filename).tail, c ≠ 46 ∧ c ≠ 47) ∧
    (filepath_Ext filename ≠ [] → (filepath_Ext filename).head? = some 46) ∧
    (filepath_Ext filename = [] → ∀ pre t, filename = pre ++ 46 :: t → 47 ∈ t) ∧
    filepath_Ext [114, 101, 112, 111, 114, 116, 46, 112, 100, 102] = [46, 112, 100, 102] ∧
    2 * cryptoDriver.HashSize .SHA256 = 64 := by
  obtain ⟨c, hc, he⟩ :=
    Hash_supported P this (filename ++ [45, 97, 116, 45] ++ fmt_decimal nanosecond) algo hw ha
  obtain ⟨h1, h2, h3, h4⟩ := filepath_Ext_spec filename
  refine ⟨?_, ?_, ?_, ?_, h1, h2, h3, h4, by decide, by decide⟩
  · simp only [cryptoDriver.HashFilename, fmt_Sprintf_at, he]
  · rw [he]
  · rw [he]
    simp only [hex_EncodeToString_length, hn c this.key _, ← hc]
    push_cast
    rfl
  · rw [he]
    exact hex_EncodeToString_lowercase _

theorem HashFilename_eq_Hash_append_Ext_witness :
    toy.WriteNeverFails ∧ toy.NominalDigest ∧ HashAlgo.SHA256 ∈ supportedAlgos ∧
    (cryptoDriver.mk [7]).HashFilename toy 5
        [114, 101, 112, 111, 114, 116, 46, 112, 100, 102] .SHA256
      = (((cryptoDriver.mk [7]).Hash toy
            ([114, 101, 112, 111, 114, 116, 46, 112, 100, 102] ++ [45, 97, 116, 45]
              ++ fmt_decimal 5) .SHA256).1
          ++ filepath_Ext [114, 101, 112, 111, 114, 116, 46, 112, 100, 102], none) :=
  ⟨toy_WriteNeverFails, toy_NominalDigest, by decide,
    (HashFilename_eq_Hash_append_Ext toy ⟨[7]⟩ 5
      [114, 101, 112, 111, 114, 116, 46, 112, 100, 102] .SHA256
      toy_WriteNeverFails toy_NominalDigest (by decide)).1⟩

end Crypto
